import Mathlib

/-!
Shallow embedding of the allocation and settlement engine of
`src/app.py` (Simple Split Bill).

Python floats are modelled as exact rationals (`ℚ`); Python `round(x, 2)`
is modelled as exact round-half-to-even to 2 decimal places (`round2`).
Python dicts are modelled as insertion-ordered association lists: a lookup
returns the first (in a real Python dict, the only) binding of a key, and
an update rewrites that first binding in place, appending a fresh binding
at the end when the key is absent — exactly the observable behaviour of a
Python dict with unique keys.

`st.session_state.shares` is a `defaultdict(lambda: defaultdict(float))`:
merely reading `shares[person]` inserts an empty row when absent.  This
mutation-on-read is modelled explicitly by `touchRow`, because it is
observable (it changes the key set of `shares`).

A Python function that can raise an uncaught exception is modelled with
`Except Unit`: `.error ()` is a raised exception (`ValueError` from
`float(...)` in `assign_share`, `KeyError` from a dict subscript in
`unit_price`), `.ok` a normal return.
-/

namespace SplitBill

/-- A quantity argument as passed to `set_share` / `assign_share`: either a
numeric value (a float, or a string that parses as a float), or a string
that does not parse as a number.  We abstract Python string parsing to its
two possible outcomes. -/
inductive QtyInput where
  | num (q : ℚ)
  | malformed
  deriving DecidableEq

/-- Models Python `float(x)`: returns the numeric value, or raises `ValueError`
on a malformed string. -/
def pyFloat : QtyInput → Except Unit ℚ
  | .num q => .ok q
  | .malformed => .error ()

/-- Round-half-to-even to an integer, the rounding used by Python `round`. -/
def roundHalfEven (q : ℚ) : ℤ :=
  let f := Int.floor q
  let r := q - f
  if r < 1/2 then f
  else if 1/2 < r then f + 1
  else if f % 2 = 0 then f else f + 1

/-- Models Python `round(x, 2)`, exact over `ℚ`. -/
def round2 (q : ℚ) : ℚ := (roundHalfEven (q * 100) : ℚ) / 100

/-- One entry of `st.session_state["items"]`: `{"qty": float, "total_price": float}`. -/
structure ItemData where
  qty : ℚ
  total_price : ℚ
  deriving DecidableEq

/-- Lookup in an association-list dict: the first binding of the key. -/
def dictGet {α : Type} (d : List (String × α)) (k : String) : Option α :=
  (d.find? (fun kv => kv.1 == k)).map (fun kv => kv.2)

/-- Update in an association-list dict: rewrite the first binding of the
key in place, or append a fresh binding when the key is absent (Python
dict assignment `d[k] = v`). -/
def dictSet {α : Type} (d : List (String × α)) (k : String) (v : α) :
    List (String × α) :=
  match d with
  | [] => [(k, v)]
  | (a, b) :: t => if a == k then (k, v) :: t else (a, b) :: dictSet t k v

/-- One row of the shares matrix: `shares[person]`, an item ↦ qty dict. -/
abbrev Row := List (String × ℚ)

/-- Python `row.get(item, 0.0)`: absent entries read as `0`. -/
def rowGet (row : Row) (item : String) : ℚ := (dictGet row item).getD 0

/-- The session state owned by the Streamlit shell: `items`, `people`,
`shares` and `tax` (the parts of `st.session_state` the core reads). -/
structure State where
  items : List (String × ItemData)
  people : List (String × String)
  shares : List (String × Row)
  tax : ℚ

/-- The row of `person` as `shares[person].get(...)` sees it (an absent
row reads as empty). -/
def sharesRow (s : State) (person : String) : Row :=
  (dictGet s.shares person).getD []

/-- The defaultdict side effect of evaluating `shares[person]`: inserts an
empty row when `person` has none. -/
def touchRow (s : State) (person : String) : State :=
  match dictGet s.shares person with
  | some _ => s
  | none => { s with shares := s.shares ++ [(person, [])] }

/-- Embeds `shares[person][item] = q` including the defaultdict insertion of the
row: the state after the assignment on line 136 of `app.py`. -/
def setShareVal (s : State) (person item : String) (q : ℚ) : State :=
  let s1 := touchRow s person
  { s1 with shares := dictSet s1.shares person (dictSet (sharesRow s1 person) item q) }

/-- Embeds `shares[person][item] += q` (line 112 of `app.py`): the absent entry
defaults to `0`, so this is a set to `current + q`. -/
def addShareVal (s : State) (person item : String) (q : ℚ) : State :=
  setShareVal s person item (rowGet (sharesRow s person) item + q)

/-- Sum of `shares[p].get(item, 0)` over all rows `p` of `shares`
(the `used` sum inside `remaining_qty`, lines 95–98 of `app.py`). -/
def used_qty (s : State) (item : String) : ℚ :=
  (s.shares.map (fun pr => rowGet pr.2 item)).sum

/-- Embeds `remaining_qty(item)` (lines 94–99): `items[item]["qty"] - used`.
Every caller checks `item in items` first; for an unknown item (where
Python would raise `KeyError`) the quantity reads as `0` here. -/
def remaining_qty (s : State) (item : String) : ℚ :=
  ((dictGet s.items item).map ItemData.qty).getD 0 - used_qty s item

/-- Embeds `unit_price(item)` (lines 89–91): `total_price / qty` when `qty` is
nonzero (truthy), else `0`; the subscript `items[item]` raises `KeyError`
(`.error ()`) when the item is unknown. -/
def unit_price (s : State) (item : String) : Except Unit ℚ :=
  match dictGet s.items item with
  | none => .error ()
  | some d => .ok (if d.qty = 0 then 0 else d.total_price / d.qty)

/-- The value of `unit_price` on the states where it does not raise; `0`
where Python would raise `KeyError` (such states are unreachable through
the validated mutators, which check item existence: see `SharesClosed`). -/
def unit_price_val (s : State) (item : String) : ℚ :=
  match unit_price s item with
  | .ok v => v
  | .error _ => 0

/-- Every item named in some shares row exists in the items dict.  Holds
in every reachable state (`set_share` / `assign_share` check item
existence and items are never deleted); where it fails, Python's
`person_total` would raise `KeyError` instead of returning a value. -/
def SharesClosed (s : State) : Prop :=
  ∀ pr ∈ s.shares, ∀ iq ∈ pr.2, (dictGet s.items iq.1).isSome

instance (s : State) : Decidable (SharesClosed s) := by
  unfold SharesClosed; infer_instance

/-- The distinct failure results of `set_share` / `assign_share`, one
constructor per return-message branch of `app.py`, carrying the value
each message interpolates. -/
inductive ShareErr where
  | selectPersonItem
  | itemNotFound (item : String)
  | qtyNotNumber
  | qtyNegative
  | qtyNonPositive
  | notEnough (item : String) (available : ℚ)
  deriving DecidableEq

/-- Embeds `set_share(person, item, qty)` (lines 116–137 of `app.py`): absolute
set with validation; returns `(some err, state)` on failure and
`(none, state)` on success.  Note the read of `shares[person]` on
line 132 (`touchRow`) happens after the first four checks and before the
capacity check, so a capacity failure has already inserted an empty row. -/
def set_share (s : State) (person item : String) (qty : QtyInput) :
    Option ShareErr × State :=
  if person = "" ∨ item = "" then (some .selectPersonItem, s)
  else if (dictGet s.items item).isNone then (some (.itemNotFound item), s)
  else
    match pyFloat qty with
    | .error _ => (some .qtyNotNumber, s)
    | .ok qf =>
      if qf < 0 then (some .qtyNegative, s)
      else
        let s1 := touchRow s person
        let current := rowGet (sharesRow s1 person) item
        let available := remaining_qty s1 item + current
        if available < qf then (some (.notEnough item available), s1)
        else (none, setShareVal s1 person item qf)

/-- Embeds `assign_share(person, item, qty)` (lines 102–113 of `app.py`):
additive assignment.  `float(qty)` on line 107 is not wrapped in
`try`/`except`, so a malformed quantity raises (`.error ()`) instead of
returning a failure message. -/
def assign_share (s : State) (person item : String) (qty : QtyInput) :
    Except Unit (Option ShareErr × State) :=
  if person = "" ∨ item = "" then .ok (some .selectPersonItem, s)
  else if (dictGet s.items item).isNone then .ok (some (.itemNotFound item), s)
  else
    match pyFloat qty with
    | .error _ => .error ()
    | .ok q =>
      if q ≤ 0 then .ok (some .qtyNonPositive, s)
      else if remaining_qty s item < q then
        .ok (some (.notEnough item (remaining_qty s item)), s)
      else .ok (none, addShareVal s person item q)

/-- Embeds `person_total(person)` (lines 140–144): `Σ qty * unit_price(item)`
over the person's row (zero entries included, they contribute `0`). -/
def person_total (s : State) (person : String) : ℚ :=
  ((sharesRow s person).map (fun iq => iq.2 * unit_price_val s iq.1)).sum

/-- Embeds `any(st.session_state.shares[p].values())` (line 193): true when some
entry of the row is nonzero (Python float truthiness). -/
def any_share (s : State) (p : String) : Bool :=
  (sharesRow s p).any (fun iq => iq.2 != 0)

/-- The participants the settlement includes (line 190–194): people keys,
in insertion order, having some nonzero share. -/
def included (s : State) : List String :=
  (s.people.map Prod.fst).filter (fun p => any_share s p)

/-- Embeds `total_sub` of `all_totals` (line 195): sum of the 2-decimal-rounded
subtotals of the included participants. -/
def total_sub (s : State) : ℚ :=
  ((included s).map (fun p => round2 (person_total s p))).sum

/-- Embeds the `tax_share` expression of `all_totals` (line 199):
`sub / total_sub * tax_total` when `total_sub > 0`, else `0`. -/
def allTotals_tax_share (s : State) (p : String) : ℚ :=
  if 0 < total_sub s then round2 (person_total s p) / total_sub s * s.tax else 0

/-- Embeds `all_totals()` (lines 188–201): participant ↦ `round(sub + tax_share, 2)`
over the included participants.  (The dict comprehension also evaluates
`shares[p]`, a defaultdict touch that does not affect any value read.) -/
def all_totals (s : State) : List (String × ℚ) :=
  (included s).map (fun p =>
    (p, round2 (round2 (person_total s p) + allTotals_tax_share s p)))

/-- Embeds `total_all` of `build_email_body` (line 239): sum of rounded subtotals
over people having some nonzero share — embedded from that call site. -/
def email_total_all (s : State) : ℚ :=
  (((s.people.map Prod.fst).filter (fun p => any_share s p)).map
    (fun p => round2 (person_total s p))).sum

/-- Embeds the `tax_share` of `build_email_body` (lines 238–241):
`subtotal / total_all * tax_total` when `total_all > 0`, else `0`, with
`subtotal = round(person_total(person), 2)`. -/
def email_tax_share (s : State) (person : String) : ℚ :=
  if 0 < email_total_all s then
    round2 (person_total s person) / email_total_all s * s.tax
  else 0

/-- One mutation call of the allocation ledger. -/
inductive Call where
  | set (person item : String) (qty : QtyInput)
  | assign (person item : String) (qty : QtyInput)

/-- The state after one call: the state a failing `set_share` returns, the
unchanged state when `assign_share` fails or raises (the raise happens
before any mutation), the mutated state on success. -/
def applyCall (s : State) (c : Call) : State :=
  match c with
  | .set p i q => (set_share s p i q).2
  | .assign p i q =>
    match assign_share s p i q with
    | .ok r => r.2
    | .error _ => s

/-- The floating-point tolerance of the conservation invariant. -/
def eps : ℚ := 1 / 1000000000

/-- Conservation invariant: for every item in the catalog, the total
assigned quantity is at most the item's quantity plus the tolerance. -/
def Conserv (s : State) : Prop :=
  ∀ i d, dictGet s.items i = some d → used_qty s i ≤ d.qty + eps

/-! ### Association-list dict lemmas -/

theorem dictGet_dictSet_self {α : Type} (d : List (String × α)) (k : String) (v : α) :
    dictGet (dictSet d k v) k = some v := by
  induction d with
  | nil => simp [dictGet, dictSet]
  | cons hd t ih =>
    obtain ⟨a, b⟩ := hd
    by_cases h : a = k
    · simp [dictSet, dictGet, h]
    · simp only [dictSet, beq_iff_eq, h, if_false]
      simpa [dictGet, h] using ih

theorem dictGet_dictSet_ne {α : Type} (d : List (String × α)) (k k2 : String) (v : α)
    (h : k2 ≠ k) : dictGet (dictSet d k v) k2 = dictGet d k2 := by
  induction d with
  | nil => simp [dictGet, dictSet, Ne.symm h]
  | cons hd t ih =>
    obtain ⟨a, b⟩ := hd
    by_cases ha : a = k
    · subst ha
      simp [dictSet, dictGet, Ne.symm h]
    · simp only [dictSet, beq_iff_eq, ha, if_false]
      by_cases ha2 : a = k2
      · simp [dictGet, ha2]
      · simpa [dictGet, ha2] using ih

theorem dictGet_append {α : Type} (d e : List (String × α)) (k : String) :
    dictGet (d ++ e) k = (dictGet d k).or (dictGet e k) := by
  simp only [dictGet, List.find?_append]
  cases d.find? (fun kv => kv.1 == k) <;> simp

theorem sum_map_dictSet {α : Type} (d : List (String × α)) (k : String) (v : α)
    (f : String × α → ℚ) :
    ((dictSet d k v).map f).sum =
      (d.map f).sum + f (k, v) -
        (match dictGet d k with
         | some b => f (k, b)
         | none => 0) := by
  induction d with
  | nil => simp [dictGet, dictSet]
  | cons hd t ih =>
    obtain ⟨a, b⟩ := hd
    by_cases h : a = k
    · subst h
      simp [dictSet, dictGet]
      ring
    · simp only [dictSet, beq_iff_eq, h, if_false, List.map_cons, List.sum_cons]
      have hg : dictGet ((a, b) :: t) k = dictGet t k := by
        simp [dictGet, h]
      rw [hg, ih]
      cases dictGet t k <;> ring

theorem rowGet_dictSet_self (r : Row) (i : String) (q : ℚ) :
    rowGet (dictSet r i q) i = q := by
  simp [rowGet, dictGet_dictSet_self]

theorem rowGet_dictSet_ne (r : Row) (i j : String) (q : ℚ) (h : j ≠ i) :
    rowGet (dictSet r i q) j = rowGet r j := by
  simp [rowGet, dictGet_dictSet_ne _ _ _ _ h]

/-! ### State-mutation lemmas -/

theorem touchRow_items (s : State) (p : String) : (touchRow s p).items = s.items := by
  unfold touchRow; cases dictGet s.shares p <;> rfl

theorem touchRow_people (s : State) (p : String) : (touchRow s p).people = s.people := by
  unfold touchRow; cases dictGet s.shares p <;> rfl

theorem touchRow_tax (s : State) (p : String) : (touchRow s p).tax = s.tax := by
  unfold touchRow; cases dictGet s.shares p <;> rfl

theorem dictGet_touchRow_self (s : State) (p : String) :
    dictGet (touchRow s p).shares p = some (sharesRow s p) := by
  unfold touchRow
  cases h : dictGet s.shares p with
  | some r => simp [sharesRow, h]
  | none =>
    simp only [sharesRow, h, Option.getD_none]
    rw [dictGet_append, h]
    simp [dictGet]

theorem sharesRow_touchRow (s : State) (p p2 : String) :
    sharesRow (touchRow s p) p2 = sharesRow s p2 := by
  unfold touchRow
  cases h : dictGet s.shares p with
  | some r => rfl
  | none =>
    by_cases hp : p2 = p
    · subst hp
      simp only [sharesRow]
      rw [dictGet_append, h]
      simp [dictGet]
    · simp only [sharesRow]
      rw [dictGet_append]
      have hs : dictGet [(p, ([] : Row))] p2 = none := by
        simp [dictGet, Ne.symm hp]
      rw [hs]
      cases dictGet s.shares p2 <;> simp

theorem used_touchRow (s : State) (p i : String) :
    used_qty (touchRow s p) i = used_qty s i := by
  unfold touchRow
  cases h : dictGet s.shares p with
  | some r => rfl
  | none => simp [used_qty, rowGet, dictGet]

theorem setShareVal_items (s : State) (p i : String) (q : ℚ) :
    (setShareVal s p i q).items = s.items := by
  simp [setShareVal, touchRow_items]

theorem setShareVal_people (s : State) (p i : String) (q : ℚ) :
    (setShareVal s p i q).people = s.people := by
  simp [setShareVal, touchRow_people]

theorem setShareVal_tax (s : State) (p i : String) (q : ℚ) :
    (setShareVal s p i q).tax = s.tax := by
  simp [setShareVal, touchRow_tax]

theorem used_setShareVal (s : State) (p i : String) (q : ℚ) (j : String) :
    used_qty (setShareVal s p i q) j =
      used_qty s j - rowGet (sharesRow s p) j + rowGet (dictSet (sharesRow s p) i q) j := by
  unfold setShareVal used_qty
  simp only []
  rw [sum_map_dictSet, dictGet_touchRow_self, sharesRow_touchRow]
  have h1 : used_qty (touchRow s p) j = used_qty s j := used_touchRow s p j
  unfold used_qty at h1
  rw [h1]
  ring

theorem used_setShareVal_self (s : State) (p i : String) (q : ℚ) :
    used_qty (setShareVal s p i q) i = used_qty s i - rowGet (sharesRow s p) i + q := by
  rw [used_setShareVal, rowGet_dictSet_self]

theorem used_setShareVal_ne (s : State) (p i : String) (q : ℚ) (j : String) (h : j ≠ i) :
    used_qty (setShareVal s p i q) j = used_qty s j := by
  rw [used_setShareVal, rowGet_dictSet_ne _ _ _ _ h]
  ring

theorem remaining_touchRow (s : State) (p i : String) :
    remaining_qty (touchRow s p) i = remaining_qty s i := by
  unfold remaining_qty
  rw [touchRow_items, used_touchRow]

/-! ### Branch characterization of set_share -/

theorem set_share_empty (s : State) (p i : String) (q : QtyInput) (h : p = "" ∨ i = "") :
    set_share s p i q = (some .selectPersonItem, s) := by
  unfold set_share
  simp [h]

theorem set_share_notFound (s : State) (p i : String) (q : QtyInput)
    (h1 : ¬(p = "" ∨ i = "")) (h2 : dictGet s.items i = none) :
    set_share s p i q = (some (.itemNotFound i), s) := by
  unfold set_share
  simp [h1, h2]

theorem set_share_malformed (s : State) (p i : String)
    (h1 : ¬(p = "" ∨ i = "")) (h2 : (dictGet s.items i).isSome) :
    set_share s p i .malformed = (some .qtyNotNumber, s) := by
  unfold set_share
  rw [Option.isSome_iff_ne_none] at h2
  simp [h1, h2, pyFloat, Option.isNone_iff_eq_none]

theorem set_share_neg (s : State) (p i : String) (qf : ℚ)
    (h1 : ¬(p = "" ∨ i = "")) (h2 : (dictGet s.items i).isSome) (h3 : qf < 0) :
    set_share s p i (.num qf) = (some .qtyNegative, s) := by
  unfold set_share
  rw [Option.isSome_iff_ne_none] at h2
  simp [h1, h2, pyFloat, Option.isNone_iff_eq_none, h3]

theorem set_share_capacity (s : State) (p i : String) (qf : ℚ)
    (h1 : ¬(p = "" ∨ i = "")) (h2 : (dictGet s.items i).isSome) (h3 : ¬qf < 0)
    (h4 : remaining_qty s i + rowGet (sharesRow s p) i < qf) :
    set_share s p i (.num qf) =
      (some (.notEnough i (remaining_qty s i + rowGet (sharesRow s p) i)), touchRow s p) := by
  unfold set_share
  rw [Option.isSome_iff_ne_none] at h2
  have h4t : remaining_qty (touchRow s p) i + rowGet (sharesRow (touchRow s p) p) i < qf := by
    rw [remaining_touchRow, sharesRow_touchRow]; exact h4
  simp only [h1, if_false, Option.isNone_iff_eq_none, h2, pyFloat, h3, if_true, h4t, if_pos]
  rw [remaining_touchRow, sharesRow_touchRow]

theorem set_share_success (s : State) (p i : String) (qf : ℚ)
    (h1 : ¬(p = "" ∨ i = "")) (h2 : (dictGet s.items i).isSome) (h3 : ¬qf < 0)
    (h4 : ¬remaining_qty s i + rowGet (sharesRow s p) i < qf) :
    set_share s p i (.num qf) = (none, setShareVal (touchRow s p) p i qf) := by
  unfold set_share
  rw [Option.isSome_iff_ne_none] at h2
  have h4t : ¬remaining_qty (touchRow s p) i + rowGet (sharesRow (touchRow s p) p) i < qf := by
    rw [remaining_touchRow, sharesRow_touchRow]; exact h4
  simp [h1, h2, pyFloat, Option.isNone_iff_eq_none, h3, h4t]

/-- Exhaustive case split on the state a `set_share` call leaves behind. -/
theorem set_share_state_cases (s : State) (p i : String) (q : QtyInput) :
    (set_share s p i q).2 = s ∨
    ((set_share s p i q).1.isSome ∧ (set_share s p i q).2 = touchRow s p) ∨
    (∃ qf, q = .num qf ∧ 0 ≤ qf ∧
      qf ≤ remaining_qty s i + rowGet (sharesRow s p) i ∧
      set_share s p i q = (none, setShareVal (touchRow s p) p i qf)) := by
  by_cases h1 : p = "" ∨ i = ""
  · left; rw [set_share_empty s p i q h1]
  · cases h2 : dictGet s.items i with
    | none => left; rw [set_share_notFound s p i q h1 h2]
    | some d =>
      have h2s : (dictGet s.items i).isSome := by rw [h2]; rfl
      cases q with
      | malformed => left; rw [set_share_malformed s p i h1 h2s]
      | num qf =>
        by_cases h3 : qf < 0
        · left; rw [set_share_neg s p i qf h1 h2s h3]
        · by_cases h4 : remaining_qty s i + rowGet (sharesRow s p) i < qf
          · right; left
            rw [set_share_capacity s p i qf h1 h2s h3 h4]
            exact ⟨rfl, rfl⟩
          · right; right
            exact ⟨qf, rfl, not_lt.mp h3, not_lt.mp h4,
              set_share_success s p i qf h1 h2s h3 h4⟩

/-! ### Branch characterization of assign_share -/

theorem assign_share_malformed (s : State) (p i : String)
    (h1 : ¬(p = "" ∨ i = "")) (h2 : (dictGet s.items i).isSome) :
    assign_share s p i .malformed = .error () := by
  unfold assign_share
  rw [Option.isSome_iff_ne_none] at h2
  simp [h1, h2, pyFloat, Option.isNone_iff_eq_none]

/-- Exhaustive case split on the state an `assign_share` call leaves
behind (treating a raised exception as leaving the state unchanged, which
it does: the raise precedes every mutation). -/
theorem assign_share_state_cases (s : State) (p i : String) (q : QtyInput) :
    (∀ r, assign_share s p i q = .ok r → r.2 = s) ∨
    (∃ qf, q = .num qf ∧ 0 < qf ∧ qf ≤ remaining_qty s i ∧
      assign_share s p i q = .ok (none, addShareVal s p i qf)) := by
  by_cases h1 : p = "" ∨ i = ""
  · left; intro r hr
    unfold assign_share at hr
    simp [h1] at hr
    rw [← hr]
  · cases h2 : dictGet s.items i with
    | none =>
      left; intro r hr
      unfold assign_share at hr
      simp [h1, h2] at hr
      rw [← hr]
    | some d =>
      have h2n : dictGet s.items i ≠ none := by rw [h2]; exact Option.some_ne_none d
      cases q with
      | malformed =>
        left; intro r hr
        unfold assign_share at hr
        simp [h1, h2n, pyFloat, Option.isNone_iff_eq_none] at hr
      | num qf =>
        by_cases h3 : qf ≤ 0
        · left; intro r hr
          unfold assign_share at hr
          simp [h1, h2n, pyFloat, Option.isNone_iff_eq_none, h3] at hr
          rw [← hr]
        · by_cases h4 : remaining_qty s i < qf
          · left; intro r hr
            unfold assign_share at hr
            simp [h1, h2n, pyFloat, Option.isNone_iff_eq_none, h3, h4] at hr
            rw [← hr]
          · right
            refine ⟨qf, rfl, not_le.mp h3, not_lt.mp h4, ?_⟩
            unfold assign_share
            simp [h1, h2n, pyFloat, Option.isNone_iff_eq_none, h3, h4]

/-! ### Conservation preservation -/

theorem eps_nonneg : (0 : ℚ) ≤ eps := by norm_num [eps]

theorem conserv_touchRow (s : State) (p : String) (h : Conserv s) :
    Conserv (touchRow s p) := by
  intro j d hj
  rw [touchRow_items] at hj
  rw [used_touchRow]
  exact h j d hj

theorem conserv_setShareVal (s : State) (p i : String) (qf : ℚ) (h : Conserv s)
    (hb : qf ≤ remaining_qty s i + rowGet (sharesRow s p) i) :
    Conserv (setShareVal s p i qf) := by
  intro j d hj
  rw [setShareVal_items] at hj
  by_cases hji : j = i
  · subst hji
    rw [used_setShareVal_self]
    have hq : remaining_qty s j = d.qty - used_qty s j := by
      unfold remaining_qty
      rw [hj]
      rfl
    have he : (0 : ℚ) ≤ eps := eps_nonneg
    rw [hq] at hb
    linarith
  · rw [used_setShareVal_ne _ _ _ _ _ hji]
    exact h j d hj

theorem conserv_set_share (s : State) (p i : String) (q : QtyInput) (h : Conserv s) :
    Conserv (set_share s p i q).2 := by
  rcases set_share_state_cases s p i q with hc | hc | ⟨qf, _, _, hb, hc⟩
  · rw [hc]; exact h
  · rw [hc.2]; exact conserv_touchRow s p h
  · rw [hc]
    have hb2 : qf ≤ remaining_qty (touchRow s p) i +
        rowGet (sharesRow (touchRow s p) p) i := by
      rw [remaining_touchRow, sharesRow_touchRow]; exact hb
    exact conserv_setShareVal (touchRow s p) p i qf (conserv_touchRow s p h) hb2

theorem conserv_addShareVal (s : State) (p i : String) (qf : ℚ) (h : Conserv s)
    (hb : qf ≤ remaining_qty s i) :
    Conserv (addShareVal s p i qf) := by
  unfold addShareVal
  apply conserv_setShareVal s p i _ h
  linarith

theorem conserv_applyCall (s : State) (c : Call) (h : Conserv s) :
    Conserv (applyCall s c) := by
  cases c with
  | set p i q => exact conserv_set_share s p i q h
  | assign p i q =>
    rcases assign_share_state_cases s p i q with hc | ⟨qf, _, _, hb, hc⟩
    · cases hr : assign_share s p i q with
      | error e => simp only [applyCall, hr]; exact h
      | ok r =>
        simp only [applyCall, hr]
        rw [hc r hr]
        exact h
    · simp only [applyCall, hc]
      exact conserv_addShareVal s p i qf h hb

theorem conserv_run (s : State) (calls : List Call) (h : Conserv s) :
    Conserv (List.foldl applyCall s calls) := by
  induction calls generalizing s with
  | nil => exact h
  | cons c t ih => exact ih (applyCall s c) (conserv_applyCall s c h)

/-! ### Further shared helpers -/

theorem dictGet_mem {α : Type} (d : List (String × α)) (k : String) (v : α)
    (h : dictGet d k = some v) : (k, v) ∈ d := by
  unfold dictGet at h
  cases hf : d.find? (fun kv => kv.1 == k) with
  | none => rw [hf] at h; simp at h
  | some kv =>
    rw [hf] at h
    have hm := List.mem_of_find?_eq_some hf
    have hp := List.find?_some hf
    obtain ⟨a, b⟩ := kv
    simp only [beq_iff_eq] at hp
    simp only [Option.map_some', Option.some.injEq] at h
    rw [← hp, ← h]
    exact hm

theorem conserv_nil_shares (s : State) (h0 : s.shares = [])
    (hq : ∀ kv ∈ s.items, (0 : ℚ) ≤ kv.2.qty) : Conserv s := by
  intro i d hd
  have hm := dictGet_mem s.items i d hd
  have hu : used_qty s i = 0 := by simp [used_qty, h0]
  have hqd := hq (i, d) hm
  have he := eps_nonneg
  rw [hu]
  linarith

theorem touchRow_shares_cases (s : State) (p : String) :
    (touchRow s p).shares = s.shares ∨
    (touchRow s p).shares = s.shares ++ [(p, [])] := by
  unfold touchRow
  cases dictGet s.shares p with
  | some r => left; rfl
  | none => right; rfl

/-! ### C1: conservation invariant -/

/-- Claim C1: Conservation invariant.  Starting from any state satisfying the
invariant (for every item, the total assigned quantity is at most the
item's quantity plus `1e-9`), the invariant still holds after any
sequence of `set_share` / `assign_share` calls — in particular after any
sequence of successful ones (a failed call leaves every quantity
untouched). -/
theorem c1_conservation (s : State) (calls : List Call) (h : Conserv s) :
    ∀ i d, dictGet (List.foldl applyCall s calls).items i = some d →
      used_qty (List.foldl applyCall s calls) i ≤ d.qty + 1 / 1000000000 := by
  intro i d hd
  have hr := conserv_run s calls h i d hd
  calc used_qty (List.foldl applyCall s calls) i ≤ d.qty + eps := hr
    _ = d.qty + 1 / 1000000000 := by norm_num [eps]

def c1State : State := ⟨[("Pizza", ⟨2, 100⟩)], [("A", "")], [], 0⟩

/-- Witness for C1 at a concrete state and call sequence. -/
theorem c1_conservation_witness :
    Conserv c1State ∧
    used_qty (List.foldl applyCall c1State [Call.set "A" "Pizza" (QtyInput.num 1)]) "Pizza" ≤
      (2 : ℚ) + 1 / 1000000000 := by
  have hc : Conserv c1State := by
    apply conserv_nil_shares c1State rfl
    intro kv hkv
    simp only [c1State, List.mem_singleton] at hkv
    rw [hkv]
    norm_num
  refine ⟨hc, ?_⟩
  have hd : dictGet (List.foldl applyCall c1State
      [Call.set "A" "Pizza" (QtyInput.num 1)]).items "Pizza" =
      some ⟨2, 100⟩ := by
    norm_num [c1State, applyCall, set_share, pyFloat, dictGet, remaining_qty,
      used_qty, sharesRow, rowGet, touchRow, setShareVal, dictSet, List.find?,
      beq_iff_eq] <;> decide
  exact c1_conservation c1State [Call.set "A" "Pizza" (QtyInput.num 1)] hc "Pizza" ⟨2, 100⟩ hd

/-! ### C3: set_share validation order -/

def c3State : State := ⟨[("Pizza", ⟨2, 100⟩)], [], [], 0⟩

/-- Counterexample for C3: the participant "Ghost" does not exist in the
people roster, yet `set_share` succeeds (returns no error) instead of
failing with a not-found error as the claim requires. -/
theorem c3_counterexample :
    dictGet c3State.people "Ghost" = none ∧
    (set_share c3State "Ghost" "Pizza" (QtyInput.num 1)).1 = none := by
  constructor
  · rfl
  · norm_num [c3State, set_share, pyFloat, dictGet, remaining_qty, used_qty,
      sharesRow, rowGet, touchRow, setShareVal, dictSet, List.find?,
      beq_iff_eq] <;> decide

/-- Claim C3 (amended): `set_share` first fails with the selection error when
the participant or item name is empty; then fails with a not-found error
when the named item does not exist (participant existence is never
checked), before any parse, sign, or capacity check; then fails with a
validation error when the quantity does not parse as a number; then when
it is negative; then fails with a capacity error carrying the available
amount (`remainingQuantity(item)` plus the participant's current
assignment) when the quantity exceeds it; otherwise it succeeds. -/
theorem c3_validation_order (s : State) (p i : String) (q : QtyInput) :
    ((p = "" ∨ i = "") → set_share s p i q = (some ShareErr.selectPersonItem, s)) ∧
    (¬(p = "" ∨ i = "") → dictGet s.items i = none →
      set_share s p i q = (some (ShareErr.itemNotFound i), s)) ∧
    (¬(p = "" ∨ i = "") → (dictGet s.items i).isSome → pyFloat q = .error () →
      set_share s p i q = (some ShareErr.qtyNotNumber, s)) ∧
    (∀ qf, ¬(p = "" ∨ i = "") → (dictGet s.items i).isSome → q = .num qf → qf < 0 →
      set_share s p i q = (some ShareErr.qtyNegative, s)) ∧
    (∀ qf, ¬(p = "" ∨ i = "") → (dictGet s.items i).isSome → q = .num qf → 0 ≤ qf →
      remaining_qty s i + rowGet (sharesRow s p) i < qf →
      (set_share s p i q).1 =
        some (ShareErr.notEnough i (remaining_qty s i + rowGet (sharesRow s p) i))) ∧
    (∀ qf, ¬(p = "" ∨ i = "") → (dictGet s.items i).isSome → q = .num qf → 0 ≤ qf →
      qf ≤ remaining_qty s i + rowGet (sharesRow s p) i →
      (set_share s p i q).1 = none) := by
  refine ⟨?_, ?_, ?_, ?_, ?_, ?_⟩
  · intro h1; exact set_share_empty s p i q h1
  · intro h1 h2; exact set_share_notFound s p i q h1 h2
  · intro h1 h2 h3
    cases q with
    | num qf => simp [pyFloat] at h3
    | malformed => exact set_share_malformed s p i h1 h2
  · intro qf h1 h2 hq h3
    rw [hq]
    exact set_share_neg s p i qf h1 h2 h3
  · intro qf h1 h2 hq h3 h4
    rw [hq, set_share_capacity s p i qf h1 h2 (not_lt.mpr h3) h4]
  · intro qf h1 h2 hq h3 h4
    rw [hq, set_share_success s p i qf h1 h2 (not_lt.mpr h3) (not_lt.mpr h4)]

/-- Witness for C3's amended theorem at concrete inputs. -/
theorem c3_validation_order_witness :
    (set_share c3State "A" "" (QtyInput.num 1) = (some ShareErr.selectPersonItem, c3State)) ∧
    (set_share c3State "A" "Soup" (QtyInput.num 1) = (some (ShareErr.itemNotFound "Soup"), c3State)) ∧
    (set_share c3State "A" "Pizza" QtyInput.malformed = (some ShareErr.qtyNotNumber, c3State)) ∧
    (set_share c3State "A" "Pizza" (QtyInput.num (-1)) = (some ShareErr.qtyNegative, c3State)) := by
  refine ⟨?_, ?_, ?_, ?_⟩
  · exact (c3_validation_order c3State "A" "" (QtyInput.num 1)).1 (Or.inr rfl)
  · apply (c3_validation_order c3State "A" "Soup" (QtyInput.num 1)).2.1
    · decide
    · rfl
  · apply (c3_validation_order c3State "A" "Pizza" QtyInput.malformed).2.2.1
    · decide
    · rfl
    · rfl
  · apply (c3_validation_order c3State "A" "Pizza" (QtyInput.num (-1))).2.2.2.1
    · decide
    · rfl
    · rfl
    · norm_num

/-! ### C4: capacity rejection scenario -/

def c4s0 : State :=
  ⟨[("Pizza", ⟨2, 50000⟩)], [("A", ""), ("B", "")], [], 0⟩

def c4s1 : State :=
  ⟨[("Pizza", ⟨2, 50000⟩)], [("A", ""), ("B", "")], [("A", [("Pizza", 2)])], 0⟩

def c4s2 : State :=
  ⟨[("Pizza", ⟨2, 50000⟩)], [("A", ""), ("B", "")], [("A", [("Pizza", 2)]), ("B", [])], 0⟩

def c4s3 : State :=
  ⟨[("Pizza", ⟨2, 50000⟩)], [("A", ""), ("B", "")], [("A", [("Pizza", 1)]), ("B", [])], 0⟩

/-- Claim C4: with item "Pizza" of quantity 2, `set_share("A","Pizza",2)`
succeeds; `set_share("B","Pizza",0.5)` then fails with the capacity error
reporting available = 0; `set_share("A","Pizza",1)` then succeeds (the
participant's current hold is released before the check), after which
`set_share("B","Pizza",1)` succeeds. -/
theorem c4_capacity_rejection :
    set_share c4s0 "A" "Pizza" (QtyInput.num 2) = (none, c4s1) ∧
    set_share c4s1 "B" "Pizza" (QtyInput.num (1/2)) =
      (some (ShareErr.notEnough "Pizza" 0), c4s2) ∧
    set_share c4s2 "A" "Pizza" (QtyInput.num 1) = (none, c4s3) ∧
    (set_share c4s3 "B" "Pizza" (QtyInput.num 1)).1 = none := by
  have hr0 : remaining_qty c4s0 "Pizza" + rowGet (sharesRow c4s0 "A") "Pizza" = 2 := by
    norm_num [remaining_qty, used_qty, sharesRow, rowGet, dictGet, c4s0, List.find?]
  have hr1 : remaining_qty c4s1 "Pizza" + rowGet (sharesRow c4s1 "B") "Pizza" = 0 := by
    norm_num [remaining_qty, used_qty, sharesRow, rowGet, dictGet, c4s1, List.find?]
  have hr2 : remaining_qty c4s2 "Pizza" + rowGet (sharesRow c4s2 "A") "Pizza" = 2 := by
    norm_num [remaining_qty, used_qty, sharesRow, rowGet, dictGet, c4s2, List.find?]
  have hr3 : remaining_qty c4s3 "Pizza" + rowGet (sharesRow c4s3 "B") "Pizza" = 1 := by
    norm_num [remaining_qty, used_qty, sharesRow, rowGet, dictGet, c4s3, List.find?]
  refine ⟨?_, ?_, ?_, ?_⟩
  · rw [set_share_success c4s0 "A" "Pizza" 2 (by decide) (by decide) (by norm_num)
      (by rw [hr0]; norm_num)]
    simp [setShareVal, touchRow, sharesRow, dictSet, dictGet, c4s0, c4s1, List.find?]
  · rw [set_share_capacity c4s1 "B" "Pizza" (1/2) (by decide) (by decide) (by norm_num)
      (by rw [hr1]; norm_num), hr1]
    simp [touchRow, dictGet, c4s1, c4s2, List.find?]
  · rw [set_share_success c4s2 "A" "Pizza" 1 (by decide) (by decide) (by norm_num)
      (by rw [hr2]; norm_num)]
    simp [setShareVal, touchRow, sharesRow, dictSet, dictGet, c4s2, c4s3, List.find?]
  · rw [set_share_success c4s3 "B" "Pizza" 1 (by decide) (by decide) (by norm_num)
      (by rw [hr3]; norm_num)]

/-! ### C6: atomicity of set_share -/

def c6State : State := ⟨[("Pizza", ⟨1, 100⟩)], [], [], 0⟩

/-- Counterexample for C6: `set_share` fails with a capacity error, yet the
key set of the shares matrix has changed — the defaultdict read of
`shares[person]` on line 132 of `app.py` inserted an empty row for "Bo"
before the capacity check rejected the call. -/
theorem c6_counterexample :
    (set_share c6State "Bo" "Pizza" (QtyInput.num 2)).1.isSome ∧
    (set_share c6State "Bo" "Pizza" (QtyInput.num 2)).2.shares ≠ c6State.shares := by
  constructor <;>
    (norm_num [c6State, set_share, pyFloat, dictGet, remaining_qty, used_qty,
      sharesRow, rowGet, touchRow, setShareVal, dictSet, List.find?,
      beq_iff_eq] <;> decide)

/-- Claim C6 (amended): whenever `set_share` returns an error, the items, the
people, the tax, and every assigned quantity (the shares matrix read as a
total function participant × item → quantity) are exactly as before the
call; the only possible change of the underlying representation is the
insertion of one empty row for the named participant — which happens
exactly when validation reaches the capacity check and fails there. -/
theorem c6_atomicity (s : State) (p i : String) (q : QtyInput)
    (h : (set_share s p i q).1.isSome) :
    (set_share s p i q).2.items = s.items ∧
    (set_share s p i q).2.people = s.people ∧
    (set_share s p i q).2.tax = s.tax ∧
    (∀ p2 i2, rowGet (sharesRow (set_share s p i q).2 p2) i2 = rowGet (sharesRow s p2) i2) ∧
    ((set_share s p i q).2.shares = s.shares ∨
      (set_share s p i q).2.shares = s.shares ++ [(p, [])]) := by
  rcases set_share_state_cases s p i q with hc | hc | ⟨qf, _, _, _, hc⟩
  · rw [hc]
    exact ⟨rfl, rfl, rfl, fun p2 i2 => rfl, Or.inl rfl⟩
  · rw [hc.2]
    refine ⟨touchRow_items s p, touchRow_people s p, touchRow_tax s p, ?_, ?_⟩
    · intro p2 i2
      rw [sharesRow_touchRow]
    · exact touchRow_shares_cases s p
  · rw [hc] at h
    simp at h

/-- Witness for C6 at a concrete failing call. -/
theorem c6_atomicity_witness :
    (set_share c6State "Bo" "Pizza" (QtyInput.num 5)).2.items = c6State.items ∧
    rowGet (sharesRow (set_share c6State "Bo" "Pizza" (QtyInput.num 5)).2 "Bo") "Pizza" =
      rowGet (sharesRow c6State "Bo") "Pizza" := by
  have h : (set_share c6State "Bo" "Pizza" (QtyInput.num 5)).1.isSome := by
    norm_num [c6State, set_share, pyFloat, dictGet, remaining_qty, used_qty,
      sharesRow, rowGet, touchRow, setShareVal, dictSet, List.find?,
      beq_iff_eq] <;> decide
  exact ⟨(c6_atomicity c6State "Bo" "Pizza" (QtyInput.num 5) h).1,
    (c6_atomicity c6State "Bo" "Pizza" (QtyInput.num 5) h).2.2.2.1 "Bo" "Pizza"⟩

/-! ### Rounding lemmas -/

theorem roundHalfEven_intCast (n : ℤ) : roundHalfEven (n : ℚ) = n := by
  unfold roundHalfEven
  rw [Int.floor_intCast]
  norm_num

theorem round2_idem (q : ℚ) : round2 (round2 q) = round2 q := by
  unfold round2
  have h : ((roundHalfEven (q * 100) : ℚ) / 100) * 100 = (roundHalfEven (q * 100) : ℚ) := by
    field_simp
  rw [h, roundHalfEven_intCast]

theorem roundHalfEven_eval_lo (q : ℚ) (n : ℤ) (h1 : (n : ℚ) ≤ q) (h2 : q < n + 1/2) :
    roundHalfEven q = n := by
  have hf : Int.floor q = n := by
    rw [Int.floor_eq_iff]
    constructor
    · exact h1
    · push_cast
      linarith
  unfold roundHalfEven
  rw [hf, if_pos]
  push_cast
  linarith

theorem roundHalfEven_eval_hi (q : ℚ) (n : ℤ) (h1 : (n : ℚ) + 1/2 < q) (h2 : q < n + 1) :
    roundHalfEven q = n + 1 := by
  have hf : Int.floor q = n := by
    rw [Int.floor_eq_iff]
    constructor
    · push_cast at h1 ⊢
      linarith
    · push_cast
      linarith
  unfold roundHalfEven
  rw [hf, if_neg, if_pos]
  · push_cast
    linarith
  · push_cast
    intro hc
    linarith

theorem round2_eval_lo (q : ℚ) (n : ℤ) (h1 : (n : ℚ) ≤ q * 100) (h2 : q * 100 < n + 1/2) :
    round2 q = (n : ℚ) / 100 := by
  unfold round2
  rw [roundHalfEven_eval_lo (q * 100) n h1 h2]

theorem round2_eval_hi (q : ℚ) (n : ℤ) (h1 : (n : ℚ) + 1/2 < q * 100) (h2 : q * 100 < n + 1) :
    round2 q = ((n : ℚ) + 1) / 100 := by
  unfold round2
  rw [roundHalfEven_eval_hi (q * 100) n h1 h2]
  push_cast
  ring

/-! ### C8: unit_price totality -/

def c8State : State := ⟨[], [], [], 0⟩

/-- Counterexample for C8: on an unknown item, `unit_price` raises `KeyError`
(the subscript `st.session_state["items"][item]` on line 90 of `app.py`)
instead of returning 0 as the claim states. -/
theorem c8_counterexample :
    unit_price c8State "X" = Except.error () ∧ unit_price c8State "X" ≠ Except.ok 0 := by
  constructor
  · rfl
  · intro h
    simp [unit_price, c8State, dictGet] at h

/-- Claim C8 (amended): `unit_price(item)` returns `totalPrice / quantity` when
the item exists with nonzero quantity, returns 0 when the item exists
with quantity 0, and raises `KeyError` when the item is unknown (it does
not return 0 there). -/
theorem c8_unit_price_total (s : State) (i : String) :
    (dictGet s.items i = none → unit_price s i = Except.error ()) ∧
    (∀ d, dictGet s.items i = some d → d.qty = 0 → unit_price s i = Except.ok 0) ∧
    (∀ d, dictGet s.items i = some d → d.qty ≠ 0 →
      unit_price s i = Except.ok (d.total_price / d.qty)) := by
  refine ⟨?_, ?_, ?_⟩
  · intro h
    unfold unit_price
    rw [h]
  · intro d h hq
    unfold unit_price
    rw [h]
    simp [hq]
  · intro d h hq
    unfold unit_price
    rw [h]
    simp [hq]

def c8wState : State := ⟨[("Tea", ⟨0, 5⟩), ("Pie", ⟨2, 10⟩)], [], [], 0⟩

/-- Witness for C8's amended theorem at concrete items. -/
theorem c8_unit_price_total_witness :
    unit_price c8wState "Tea" = Except.ok 0 ∧
    unit_price c8wState "Pie" = Except.ok ((10 : ℚ) / 2) ∧
    unit_price c8wState "Soup" = Except.error () := by
  refine ⟨?_, ?_, ?_⟩
  · exact (c8_unit_price_total c8wState "Tea").2.1 ⟨0, 5⟩ (by rfl) (by norm_num)
  · exact (c8_unit_price_total c8wState "Pie").2.2 ⟨2, 10⟩ (by rfl) (by norm_num)
  · exact (c8_unit_price_total c8wState "Soup").1 (by rfl)

/-! ### C7: no uncontrolled faults -/

def c7State : State := ⟨[("Pizza", ⟨2, 100⟩)], [("A", "")], [], 0⟩

/-- Counterexample for C7: `assign_share` raises an uncaught `ValueError`
(the bare `float(qty)` on line 107 of `app.py`) on a non-numeric quantity
string, instead of returning a failure message as the claim states. -/
theorem c7_counterexample :
    assign_share c7State "A" "Pizza" QtyInput.malformed = Except.error () := by
  apply assign_share_malformed c7State "A" "Pizza"
  · decide
  · rfl

/-- Claim C7 (amended): `assign_share` never raises on numeric quantities;
`set_share` returns an explicit validation failure on a non-numeric
quantity (but `assign_share` raises `ValueError` there); a zero-quantity
item has unit price 0 rather than a division-by-zero fault; and both tax
distribution call sites return tax share 0 when the total subtotal is not
positive, so no user-visible total arises from a division by zero. -/
theorem c7_no_uncontrolled_faults :
    (∀ s p i q, ∃ r, assign_share s p i (QtyInput.num q) = Except.ok r) ∧
    (∀ s p i, ¬(p = "" ∨ i = "") → (dictGet s.items i).isSome →
      (set_share s p i QtyInput.malformed).1 = some ShareErr.qtyNotNumber) ∧
    (∀ s i d, dictGet s.items i = some d → d.qty = 0 → unit_price s i = Except.ok 0) ∧
    (∀ s p, ¬ 0 < total_sub s → allTotals_tax_share s p = 0) ∧
    (∀ s p, ¬ 0 < email_total_all s → email_tax_share s p = 0) := by
  refine ⟨?_, ?_, ?_, ?_, ?_⟩
  · intro s p i q
    unfold assign_share
    by_cases h1 : p = "" ∨ i = ""
    · rw [if_pos h1]
      exact ⟨_, rfl⟩
    · rw [if_neg h1]
      by_cases h2 : (dictGet s.items i).isNone
      · rw [if_pos h2]
        exact ⟨_, rfl⟩
      · rw [if_neg h2]
        simp only [pyFloat]
        by_cases h3 : q ≤ 0
        · rw [if_pos h3]
          exact ⟨_, rfl⟩
        · rw [if_neg h3]
          by_cases h4 : remaining_qty s i < q
          · rw [if_pos h4]
            exact ⟨_, rfl⟩
          · rw [if_neg h4]
            exact ⟨_, rfl⟩
  · intro s p i h1 h2
    rw [set_share_malformed s p i h1 h2]
  · intro s i d h hq
    unfold unit_price
    rw [h]
    simp [hq]
  · intro s p h
    unfold allTotals_tax_share
    rw [if_neg h]
  · intro s p h
    unfold email_tax_share
    rw [if_neg h]

/-- Witness for C7 at concrete inputs. -/
theorem c7_no_uncontrolled_faults_witness :
    (∃ r, assign_share c7State "A" "Pizza" (QtyInput.num 1) = Except.ok r) ∧
    (set_share c7State "A" "Pizza" QtyInput.malformed).1 = some ShareErr.qtyNotNumber := by
  constructor
  · exact c7_no_uncontrolled_faults.1 c7State "A" "Pizza" 1
  · exact c7_no_uncontrolled_faults.2.1 c7State "A" "Pizza" (by decide) (by rfl)

/-! ### Settlement lookup lemmas -/

theorem dictGet_map_self (l : List String) (F : String → ℚ) (p : String) (h : p ∈ l) :
    dictGet (l.map (fun x => (x, F x))) p = some (F p) := by
  induction l with
  | nil => cases h
  | cons a t ih =>
    by_cases hap : a = p
    · subst hap
      unfold dictGet
      rw [List.map_cons, List.find?_cons_of_pos]
      · rfl
      · simp
    · rcases List.mem_cons.mp h with h1 | h2
      · exact absurd h1.symm hap
      · unfold dictGet
        rw [List.map_cons, List.find?_cons_of_neg]
        · exact ih h2
        · simp [hap]

theorem dictGet_map_of_not_mem (l : List String) (F : String → ℚ) (p : String)
    (h : p ∉ l) : dictGet (l.map (fun x => (x, F x))) p = none := by
  induction l with
  | nil => rfl
  | cons a t ih =>
    have hap : a ≠ p := fun hc => h (hc ▸ List.mem_cons_self a t)
    unfold dictGet
    rw [List.map_cons, List.find?_cons_of_neg]
    · exact ih (fun hc => h (List.mem_cons_of_mem a hc))
    · simp [hap]

theorem mem_included_of_ne (s : State) (p : String) (hp : p ∈ s.people.map Prod.fst)
    (hpos : ∃ iq ∈ sharesRow s p, iq.2 ≠ 0) : p ∈ included s := by
  apply List.mem_filter.mpr
  refine ⟨hp, ?_⟩
  unfold any_share
  rcases hpos with ⟨iq, hiq, hne⟩
  apply List.any_eq_true.mpr
  exact ⟨iq, hiq, by simpa [bne_iff_ne] using hne⟩

/-! ### C2: tax distribution of all_totals -/

def c2cState : State :=
  ⟨[("A", ⟨1, 1⟩), ("B", ⟨1, 2⟩)], [("Ann", ""), ("Bo", "")],
    [("Ann", [("A", 1)]), ("Bo", [("B", 1)])], 1⟩

/-- Counterexample for C2: with subtotals 1 and 2 and tax 1, Ann's tax share
is 1/3, and `all_totals` reports `round2(1 + 1/3) = 1.33` for Ann — not
`round2(subtotal) + taxShare = 4/3` as the claim states (the code rounds
the sum once more, line 200 of `app.py`). -/
theorem c2_counterexample :
    dictGet (all_totals c2cState) "Ann" ≠
      some (round2 (person_total c2cState "Ann") + allTotals_tax_share c2cState "Ann") := by
  have hpt : person_total c2cState "Ann" = 1 := by
    simp +decide [person_total, sharesRow, rowGet, unit_price_val, unit_price, dictGet,
      c2cState, List.find?]
    all_goals norm_num
  have hptB : person_total c2cState "Bo" = 2 := by
    simp +decide [person_total, sharesRow, rowGet, unit_price_val, unit_price, dictGet,
      c2cState, List.find?]
    all_goals norm_num
  have hinc : included c2cState = ["Ann", "Bo"] := by
    simp +decide [included, any_share, sharesRow, dictGet, c2cState, List.find?,
      List.filter]
  have hr1 : round2 (1 : ℚ) = 1 := by
    rw [round2_eval_lo 1 100 (by norm_num) (by norm_num)]
    norm_num
  have hr2 : round2 (2 : ℚ) = 2 := by
    rw [round2_eval_lo 2 200 (by norm_num) (by norm_num)]
    norm_num
  have hts : total_sub c2cState = 3 := by
    unfold total_sub
    rw [hinc]
    simp [hpt, hptB, hr1, hr2]
    norm_num
  have htax : allTotals_tax_share c2cState "Ann" = 1/3 := by
    unfold allTotals_tax_share
    rw [hts, if_pos (by norm_num), hpt, hr1]
    show (1 : ℚ) / 3 * c2cState.tax = 1/3
    norm_num [c2cState]
  have hlook : dictGet (all_totals c2cState) "Ann" =
      some (round2 (round2 (person_total c2cState "Ann") +
        allTotals_tax_share c2cState "Ann")) := by
    unfold all_totals
    apply dictGet_map_self
    rw [hinc]
    exact List.mem_cons_self "Ann" ["Bo"]
  rw [hlook, hpt, hr1, htax]
  have hround : round2 ((1 : ℚ) + 1/3) = 133/100 := by
    rw [round2_eval_lo (1 + 1/3) 133 (by norm_num) (by norm_num)]
    norm_num
  rw [hround]
  intro hc
  rw [Option.some.injEq] at hc
  norm_num at hc

def c2sState : State :=
  ⟨[("Burger", ⟨1, 10000⟩), ("Fries", ⟨1, 5000⟩)], [("Ann", ""), ("Bo", "")],
    [("Ann", [("Burger", 1)]), ("Bo", [("Fries", 1)])], 1500⟩

/-- Claim C2 (amended): restricted to included participants, with totalSub the
sum of 2-decimal-rounded subtotals, each participant's tax share is
`round2(subtotal)/totalSub * taxTotal` when `totalSub > 0` and 0 when
`totalSub = 0`, and the participant's reported total is
`round2(round2(subtotal) + taxShare)` (the sum is rounded once more
before being reported).  The Burger/Fries scenario holds as stated:
subtotal(Ann)=10000, subtotal(Bo)=5000, taxShare(Ann)=1000,
taxShare(Bo)=500, total(Ann)=11000, total(Bo)=5500. -/
theorem c2_tax_distribution :
    (∀ s p, SharesClosed s → p ∈ included s →
      dictGet (all_totals s) p =
        some (round2 (round2 (person_total s p) + allTotals_tax_share s p)) ∧
      (0 < total_sub s →
        allTotals_tax_share s p = round2 (person_total s p) / total_sub s * s.tax) ∧
      (total_sub s = 0 → allTotals_tax_share s p = 0)) ∧
    (round2 (person_total c2sState "Ann") = 10000 ∧
      round2 (person_total c2sState "Bo") = 5000 ∧
      allTotals_tax_share c2sState "Ann" = 1000 ∧
      allTotals_tax_share c2sState "Bo" = 500 ∧
      dictGet (all_totals c2sState) "Ann" = some 11000 ∧
      dictGet (all_totals c2sState) "Bo" = some 5500) := by
  have hgen : ∀ s p, SharesClosed s → p ∈ included s →
      dictGet (all_totals s) p =
        some (round2 (round2 (person_total s p) + allTotals_tax_share s p)) ∧
      (0 < total_sub s →
        allTotals_tax_share s p = round2 (person_total s p) / total_sub s * s.tax) ∧
      (total_sub s = 0 → allTotals_tax_share s p = 0) := by
    intro s p _ hm
    refine ⟨?_, ?_, ?_⟩
    · unfold all_totals
      exact dictGet_map_self _ _ _ hm
    · intro hpos
      unfold allTotals_tax_share
      rw [if_pos hpos]
    · intro hz
      unfold allTotals_tax_share
      rw [if_neg (by rw [hz]; norm_num)]
  refine ⟨hgen, ?_⟩
  have hptA : person_total c2sState "Ann" = 10000 := by
    simp +decide [person_total, sharesRow, rowGet, unit_price_val, unit_price, dictGet,
      c2sState, List.find?]
    all_goals norm_num
  have hptB : person_total c2sState "Bo" = 5000 := by
    simp +decide [person_total, sharesRow, rowGet, unit_price_val, unit_price, dictGet,
      c2sState, List.find?]
    all_goals norm_num
  have hrA : round2 (10000 : ℚ) = 10000 := by
    rw [round2_eval_lo 10000 1000000 (by norm_num) (by norm_num)]
    norm_num
  have hrB : round2 (5000 : ℚ) = 5000 := by
    rw [round2_eval_lo 5000 500000 (by norm_num) (by norm_num)]
    norm_num
  have hinc : included c2sState = ["Ann", "Bo"] := by
    simp +decide [included, any_share, sharesRow, dictGet, c2sState, List.find?,
      List.filter]
  have hts : total_sub c2sState = 15000 := by
    unfold total_sub
    rw [hinc]
    simp [hptA, hptB, hrA, hrB]
    norm_num
  have htaxA : allTotals_tax_share c2sState "Ann" = 1000 := by
    unfold allTotals_tax_share
    rw [hts, if_pos (by norm_num), hptA, hrA]
    show (10000 : ℚ) / 15000 * c2sState.tax = 1000
    norm_num [c2sState]
  have htaxB : allTotals_tax_share c2sState "Bo" = 500 := by
    unfold allTotals_tax_share
    rw [hts, if_pos (by norm_num), hptB, hrB]
    show (5000 : ℚ) / 15000 * c2sState.tax = 500
    norm_num [c2sState]
  have hcl : SharesClosed c2sState := by decide
  have hmA : "Ann" ∈ included c2sState := by
    rw [hinc]; exact List.mem_cons_self _ _
  have hmB : "Bo" ∈ included c2sState := by
    rw [hinc]; exact List.mem_cons_of_mem _ (List.mem_cons_self _ _)
  have htA : round2 ((10000 : ℚ) + 1000) = 11000 := by
    have hs : ((10000 : ℚ) + 1000) = 11000 := by norm_num
    rw [hs, round2_eval_lo 11000 1100000 (by norm_num) (by norm_num)]
    norm_num
  have htB : round2 ((5000 : ℚ) + 500) = 5500 := by
    have hs : ((5000 : ℚ) + 500) = 5500 := by norm_num
    rw [hs, round2_eval_lo 5500 550000 (by norm_num) (by norm_num)]
    norm_num
  refine ⟨by rw [hptA, hrA], by rw [hptB, hrB], htaxA, htaxB, ?_, ?_⟩
  · rw [(hgen c2sState "Ann" hcl hmA).1, hptA, hrA, htaxA, htA]
  · rw [(hgen c2sState "Bo" hcl hmB).1, hptB, hrB, htaxB, htB]

/-- Witness for C2's amended theorem: its general part applied at the
Burger/Fries state. -/
theorem c2_tax_distribution_witness :
    dictGet (all_totals c2sState) "Ann" =
      some (round2 (round2 (person_total c2sState "Ann") +
        allTotals_tax_share c2sState "Ann")) := by
  have hcl : SharesClosed c2sState := by decide
  have hmA : "Ann" ∈ included c2sState := by
    have hinc : included c2sState = ["Ann", "Bo"] := by
      simp +decide [included, any_share, sharesRow, dictGet, c2sState, List.find?,
        List.filter]
    rw [hinc]
    exact List.mem_cons_self _ _
  exact (c2_tax_distribution.1 c2sState "Ann" hcl hmA).1

/-! ### C5: exclusion property -/

def c5State : State :=
  ⟨[("Burger", ⟨1, 10⟩)], [("Ann", ""), ("Zed", "")],
    [("Ann", [("Burger", 1)]), ("Zed", [("Burger", 0)])], 0⟩

/-- Claim C5: a participant present in the people roster all of whose assigned
quantities are non-positive (given the reachable-state fact that stored
quantities are non-negative, this is exactly "zero total assigned
quantity") is absent from the mapping `all_totals` returns, and a roster
participant with at least one positive assigned quantity is present. -/
theorem c5_exclusion (s : State) (p : String) (hp : p ∈ s.people.map Prod.fst)
    (hnn : ∀ iq ∈ sharesRow s p, (0 : ℚ) ≤ iq.2) :
    ((∀ iq ∈ sharesRow s p, ¬(0 < iq.2)) → dictGet (all_totals s) p = none) ∧
    ((∃ iq ∈ sharesRow s p, 0 < iq.2) → (dictGet (all_totals s) p).isSome) := by
  constructor
  · intro hz
    unfold all_totals
    apply dictGet_map_of_not_mem
    intro hmem
    rcases List.mem_filter.mp hmem with ⟨_, hany⟩
    unfold any_share at hany
    rcases List.any_eq_true.mp hany with ⟨iq, hiq, hne⟩
    have hne2 : iq.2 ≠ 0 := by simpa [bne_iff_ne] using hne
    exact (hz iq hiq) (lt_of_le_of_ne (hnn iq hiq) (Ne.symm hne2))
  · rintro ⟨iq, hiq, hpos⟩
    have hmem : p ∈ included s :=
      mem_included_of_ne s p hp ⟨iq, hiq, ne_of_gt hpos⟩
    unfold all_totals
    rw [dictGet_map_self _ _ _ hmem]
    rfl

/-- Witness for C5 at a concrete state: "Zed" has a zero share only and
is excluded, "Ann" has a positive share and is included. -/
theorem c5_exclusion_witness :
    dictGet (all_totals c5State) "Zed" = none ∧
    (dictGet (all_totals c5State) "Ann").isSome := by
  constructor
  · exact (c5_exclusion c5State "Zed" (by decide) (by decide)).1 (by decide)
  · exact (c5_exclusion c5State "Ann" (by decide) (by decide)).2
      ⟨("Burger", 1), by decide, by norm_num⟩

/-! ### C9: zero-tax identity -/

def c9State : State :=
  ⟨[("Burger", ⟨1, 10⟩)], [("Ann", "")], [("Ann", [("Burger", 1)])], 0⟩

/-- Claim C9: when the tax total is 0, the total `all_totals` reports for every
included participant is that participant's subtotal rounded to 2 decimal
places (the tax share contributes nothing). -/
theorem c9_zero_tax (s : State) (p : String) (htax : s.tax = 0)
    (hcl : SharesClosed s) (hp : p ∈ included s) :
    dictGet (all_totals s) p = some (round2 (person_total s p)) := by
  unfold all_totals
  rw [dictGet_map_self _ _ _ hp]
  have hts : allTotals_tax_share s p = 0 := by
    unfold allTotals_tax_share
    rw [htax]
    split
    · rw [mul_zero]
    · rfl
  rw [hts, add_zero, round2_idem]

/-- Witness for C9 at a concrete zero-tax state. -/
theorem c9_zero_tax_witness :
    dictGet (all_totals c9State) "Ann" = some (round2 (person_total c9State "Ann")) := by
  have hp : "Ann" ∈ included c9State := by
    simp +decide [included, any_share, sharesRow, dictGet, c9State, List.find?,
      List.filter]
  exact c9_zero_tax c9State "Ann" rfl (by decide) hp

/-! ### C10: tax-share agreement between build_email_body and all_totals -/

def c10State : State :=
  ⟨[("Burger", ⟨1, 10000⟩), ("Fries", ⟨1, 5000⟩)], [("Ann", ""), ("Bo", "")],
    [("Ann", [("Burger", 1)]), ("Bo", [("Fries", 1)])], 1500⟩

/-- Claim C10: for every state and every roster participant with at least one
positive assigned quantity, the tax share computed inside
`build_email_body` (lines 238–241 of `app.py`) equals the tax share
`all_totals` uses for that participant: the two call sites sum the same
2-decimal-rounded subtotals over the same included-participant set
(people with some nonzero share) and apply the same proportional
formula, and `all_totals` reports `round2(round2(subtotal) + taxShare)`
built from that shared tax share. -/
theorem c10_tax_share_agreement (s : State) (p : String) (hcl : SharesClosed s)
    (hp : p ∈ s.people.map Prod.fst) (hpos : ∃ iq ∈ sharesRow s p, 0 < iq.2) :
    email_tax_share s p = allTotals_tax_share s p ∧
    email_total_all s = total_sub s ∧
    dictGet (all_totals s) p =
      some (round2 (round2 (person_total s p) + allTotals_tax_share s p)) := by
  have heq : email_total_all s = total_sub s := by
    unfold email_total_all total_sub included
    rfl
  refine ⟨?_, heq, ?_⟩
  · unfold email_tax_share allTotals_tax_share
    rw [heq]
  · have hmem : p ∈ included s := by
      rcases hpos with ⟨iq, hiq, hpos2⟩
      exact mem_included_of_ne s p hp ⟨iq, hiq, ne_of_gt hpos2⟩
    unfold all_totals
    rw [dictGet_map_self _ _ _ hmem]

/-- Witness for C10 at a concrete state. -/
theorem c10_tax_share_agreement_witness :
    email_tax_share c10State "Ann" = allTotals_tax_share c10State "Ann" ∧
    email_total_all c10State = total_sub c10State := by
  have h := c10_tax_share_agreement c10State "Ann" (by decide) (by decide)
    ⟨("Burger", 1), by decide, by norm_num⟩
  exact ⟨h.1, h.2.1⟩

end SplitBill
